import Mathlib

/-!
Verification of the documentation scrape-and-summarize pipeline implemented in
`.roo/skills/scripts/agent-skill-generator/llms_generator.py` (class
`LLMSGenerator`).  Strings are modelled as `List Char`; the external services
(the Firecrawl map/scrape endpoints and the OpenAI chat completion) are
modelled as oracles mapping each attempt number to the response that attempt
receives.  The tenacity retry decorator `retry(stop=stop_after_attempt(3),
wait=wait_exponential(...))` is modelled by `retryCall`, which also reports how
many attempts were made; tenacity's default retry predicate retries on every
raised exception, and the wait schedule only affects real time, not values.
-/

namespace LlmsGen

/-- Strings of the Python program, modelled as lists of characters. -/
abbrev Str := List Char

/-- Kind of exception an external call can raise: a network/server error (a
`requests` exception, `response.raise_for_status()`, an OpenAI API error) or a
`json.JSONDecodeError` from `json.loads` on the model output. -/
inductive ErrKind where
  | network
  | jsonDecode
deriving DecidableEq

/-- Result of one attempt of an external call: a returned value, or a raised
exception of the given kind. -/
inductive Outcome (α : Type) where
  | ok (a : α)
  | err (e : ErrKind)
deriving DecidableEq

/-- The tenacity retry loop, counting attempts: `retryFromCnt call k r` makes
attempt `call k`; while it raises and `r` further attempts remain it moves to
the next attempt.  It returns the final outcome (the exception of the last
attempt propagates once attempts are exhausted) together with the number of
attempts made. -/
def retryFromCnt (call : Nat → Outcome α) : Nat → Nat → Outcome α × Nat
  | k, 0 => (call k, 1)
  | k, r + 1 =>
    match call k with
    | .ok a => (.ok a, 1)
    | .err _ =>
      let p := retryFromCnt call (k + 1) r
      (p.1, p.2 + 1)

/-- `@retry(stop=stop_after_attempt(n), wait=wait_exponential(...))`: up to `n`
attempts in total. -/
def retryCall (n : Nat) (call : Nat → Outcome α) : Outcome α × Nat :=
  retryFromCnt call 0 (n - 1)

/-- Response of one call of the Firecrawl `/map` endpoint: either a raised
network/HTTP error, or a JSON body with a `success` flag and a `links` list.
An absent `links` field and an empty one are identified: both are falsy in
`data.get("success") and data.get("links")`. -/
inductive MapResp where
  | netErr
  | body (success : Bool) (links : List Str)

/-- One attempt of `_map_website` (lines 54-76): raise on HTTP error, return
`data["links"]` when `success` and `links` are truthy, else return `[]`. -/
def map_website_once (resp : MapResp) : Outcome (List Str) :=
  match resp with
  | .netErr => .err .network
  | .body success links => .ok (if success && !links.isEmpty then links else [])

/-- `_map_website` with its tenacity wrapper (3 attempts).  `url` and `limit`
only shape the request body sent to the external service, so the value
returned is determined by the oracle `calls` alone. -/
def map_website (url : Str) (limit : Nat) (calls : Nat → MapResp) :
    Outcome (List Str) :=
  let _ := url
  let _ := limit
  (retryCall 3 (fun k => map_website_once (calls k))).1

/-- Number of attempts the retry wrapper of `_map_website` makes. -/
def map_websiteAttempts (calls : Nat → MapResp) : Nat :=
  (retryCall 3 (fun k => map_website_once (calls k))).2

/-- The `data` object of a Firecrawl `/scrape` response; `markdown` is
`data["data"].get("markdown", "")`, so an absent markdown field is the empty
string. -/
structure ScrapePayload where
  markdown : Str
deriving DecidableEq

/-- Response of one call of the Firecrawl `/scrape` endpoint: a raised
network/HTTP error, or a JSON body with a `success` flag and an optional
`data` object (an absent, null or empty `data` dict is `none`: all falsy). -/
inductive ScrapeResp where
  | netErr
  | body (success : Bool) (data : Option ScrapePayload)

/-- One attempt of `_scrape_url` (lines 92-116): raise on HTTP error, return
the payload when `success` and `data` are truthy, else return `None`. -/
def scrape_url_once (resp : ScrapeResp) : Outcome (Option ScrapePayload) :=
  match resp with
  | .netErr => .err .network
  | .body success data => .ok (if success then data else none)

/-- `_scrape_url` with its tenacity wrapper (3 attempts). -/
def scrape_url (url : Str) (calls : Nat → ScrapeResp) :
    Outcome (Option ScrapePayload) :=
  let _ := url
  (retryCall 3 (fun k => scrape_url_once (calls k))).1

/-- Number of attempts the retry wrapper of `_scrape_url` makes. -/
def scrape_urlAttempts (calls : Nat → ScrapeResp) : Nat :=
  (retryCall 3 (fun k => scrape_url_once (calls k))).2

/-- Response of one summarizer call: `netErr` models an OpenAI API error;
`content p` models a returned message body, which `json.loads`-parses to a
JSON object iff `p = some (t, d)` where `t` and `d` are the optional `title`
and `description` string fields of that object. -/
inductive SummaryResp where
  | netErr
  | content (parsed : Option (Option Str × Option Str))

/-- Default substituted by `result.get("title", "Page")`. -/
def defaultTitle : Str := "Page".toList

/-- Default substituted by `result.get("description", "No description available")`. -/
def defaultDescription : Str := "No description available".toList

/-- One attempt of `_generate_summary` (lines 133-165): an API error raises; a
body that `json.loads` cannot parse raises `json.JSONDecodeError`; a parsed
object yields `(result.get("title", "Page"), result.get("description", "No
description available"))`. -/
def generate_summary_once (resp : SummaryResp) : Outcome (Str × Str) :=
  match resp with
  | .netErr => .err .network
  | .content none => .err .jsonDecode
  | .content (some (t, d)) => .ok (t.getD defaultTitle, d.getD defaultDescription)

/-- `_generate_summary` with its tenacity wrapper (3 attempts).  `url` and
`markdown` (truncated to `markdown[:4000]`) only shape the prompt, so the
value returned is determined by the oracle `calls` alone. -/
def generate_summary (url : Str) (markdown : Str) (calls : Nat → SummaryResp) :
    Outcome (Str × Str) :=
  let _ := url
  let _ := markdown
  (retryCall 3 (fun k => generate_summary_once (calls k))).1

/-- Number of attempts the retry wrapper of `_generate_summary` makes. -/
def generate_summaryAttempts (calls : Nat → SummaryResp) : Nat :=
  (retryCall 3 (fun k => generate_summary_once (calls k))).2

/-- The `ScrapedPage` pydantic model of `schemas.py`. -/
structure ScrapedPage where
  url : Str
  title : Str
  description : Str
  markdown : Str
  index : Nat
deriving DecidableEq

/-- `_process_url` (lines 167-193): scrape the URL; on `None` or empty
markdown return `None`; otherwise summarize and build the `ScrapedPage`.  An
`err` outcome models an exception propagating out of the worker (it is caught
by the scheduler's `except` clause); `ok none` models the explicit
`return None`. -/
def process_url (scrapeCalls : Nat → ScrapeResp) (sumCalls : Nat → SummaryResp)
    (url : Str) (index : Nat) : Outcome (Option ScrapedPage) :=
  match scrape_url url scrapeCalls with
  | .err e => .err e
  | .ok none => .ok none
  | .ok (some payload) =>
    if payload.markdown.isEmpty then .ok none
    else
      match generate_summary url payload.markdown sumCalls with
      | .err e => .err e
      | .ok (t, d) => .ok (some ⟨url, t, d, payload.markdown, index⟩)

/-- The page record a worker contributes to `all_results`: `some` exactly when
`_process_url` returns a `ScrapedPage` (a raised exception and `return None`
both contribute nothing). -/
def procOpt (sc : Nat → ScrapeResp) (su : Nat → SummaryResp) (url : Str)
    (index : Nat) : Option ScrapedPage :=
  match process_url sc su url index with
  | .ok (some p) => some p
  | .ok none => none
  | .err _ => none

/-- The successful page records of a run in submission order: the URL at
position `i` of the (already truncated) list is processed by the worker
submitted as `_process_url(url, i + j)` with `i + j` equal to its global
position, so record `i` draws from the scrape oracle `sc i` and summary
oracle `su i`.  The batch loop (lines 232-257) partitions positions into
batches but assigns exactly these indices; each worker's completions land in
`all_results` in some batch-respecting completion order, always a permutation
of this list, which the concurrency theorems quantify over. -/
def pipelineSuccesses (urls : List Str) (sc : Nat → Nat → ScrapeResp)
    (su : Nat → Nat → SummaryResp) : List ScrapedPage :=
  urls.enum.filterMap (fun iu => procOpt (sc iu.1) (su iu.1) iu.2 iu.1)

/-- Insert a page into a list sorted by `index`. -/
def insertByIndex (p : ScrapedPage) : List ScrapedPage → List ScrapedPage
  | [] => [p]
  | q :: qs => if p.index ≤ q.index then p :: q :: qs else q :: insertByIndex p qs

/-- `all_results.sort(key=lambda x: x.index)` (line 260), modelled as an
insertion sort by index.  On the lists the pipeline produces the indices are
pairwise distinct, so every comparison sort by index — in particular CPython's
stable sort — computes the same list. -/
def sortByIndex : List ScrapedPage → List ScrapedPage
  | [] => []
  | p :: ps => insertByIndex p (sortByIndex ps)

/-- Decimal digits of `n`, least fuel-bounded div-mod algorithm; empty for 0
(the separator numbering of the generator starts at 1, never 0). -/
def natDigitsAux : Nat → Nat → List Char
  | 0, _ => []
  | fuel + 1, n =>
    if n = 0 then [] else natDigitsAux fuel (n / 10) ++ [Nat.digitChar (n % 10)]

/-- Decimal representation of `n`, as `f"{n}"` renders it for positive `n`. -/
def natDigits (n : Nat) : List Char := natDigitsAux n n

/-- The fixed prefix of the page-separator pattern. -/
def sepHead : Str := "<|firecrawl-page-".toList

/-- The fixed suffix of the page-separator pattern, newline included, matching
the regex `<\|firecrawl-page-\d+-lllmstxt\|>\n` of `_remove_page_separators`. -/
def sepTail : Str := "-lllmstxt|>\n".toList

/-- The separator inserted before page `i`:
`f"<|firecrawl-page-{i}-lllmstxt|>\n"` (line 266). -/
def pageSep (i : Nat) : Str := sepHead ++ natDigits i ++ sepTail

/-- The separator marker without its trailing newline, the shape a residual
marker substring would take in the delivered document. -/
def pageMarker (i : Nat) : Str := sepHead ++ natDigits i ++ "-lllmstxt|>".toList

/-- One match attempt of the regex `<\|firecrawl-page-\d+-lllmstxt\|>\n` at
the head of `s`, returning the rest of the string after the match.  The greedy
`\d+` agrees with taking the maximal digit run: after a shorter run the next
pattern character `-` would have to match a digit, which fails. -/
def matchSep (s : Str) : Option Str :=
  if sepHead <+: s then
    let t := s.drop sepHead.length
    let ds := t.takeWhile (fun c => c.isDigit)
    if ds.isEmpty then none
    else
      let r := t.drop ds.length
      if sepTail <+: r then some (r.drop sepTail.length) else none
  else none

/-- Fuel-bounded core of `_remove_page_separators`: scan left to right; at
each position either remove a whole leftmost match (continuing after it,
without rescanning the output, exactly as `re.sub` does) or keep the head
character.  Each step consumes at least one character, so fuel `s.length`
suffices. -/
def stripSepsF : Nat → Str → Str
  | 0, s => s
  | _ + 1, [] => []
  | fuel + 1, c :: cs =>
    match matchSep (c :: cs) with
    | some r => stripSepsF fuel r
    | none => c :: stripSepsF fuel cs

/-- `_remove_page_separators` (lines 195-197):
`re.sub(r'<\|firecrawl-page-\d+-lllmstxt\|>\n', '', text)`. -/
def stripSeps (s : Str) : Str := stripSepsF s.length s

/-- Header of the index document: `f"# {url} llms.txt\n\n"` (line 225). -/
def llmsHeader (url : Str) : Str := "# ".toList ++ url ++ " llms.txt\n\n".toList

/-- Header of the full-text document: `f"# {url} llms-full.txt\n\n"`
(line 226). -/
def llmsFullHeader (url : Str) : Str :=
  "# ".toList ++ url ++ " llms-full.txt\n\n".toList

/-- One line of the index document:
`f"- [{result.title}]({result.url}): {result.description}\n"` (line 264). -/
def entryLine (p : ScrapedPage) : Str :=
  "- [".toList ++ p.title ++ "](".toList ++ p.url ++ "): ".toList ++
    p.description ++ "\n".toList

/-- One block of the full-text document, separator included:
`f"<|firecrawl-page-{i}-lllmstxt|>\n## {result.title}\n{result.markdown}\n\n"`
(lines 266-267). -/
def fullEntry (i : Nat) (p : ScrapedPage) : Str :=
  pageSep i ++ "## ".toList ++ p.title ++ "\n".toList ++ p.markdown ++
    "\n\n".toList

/-- The body of the index document: the entry lines of the (sorted) records,
in list order. -/
def indexDoc : List ScrapedPage → Str
  | [] => []
  | p :: ps => entryLine p ++ indexDoc ps

/-- The body of the pre-strip full-text document, numbering the separators
from `i` upward (`enumerate(all_results, 1)` starts at 1). -/
def fullDoc (i : Nat) : List ScrapedPage → Str
  | [] => []
  | p :: ps => fullEntry i p ++ fullDoc (i + 1) ps

/-- The `metadata` dict of the bundle (lines 276-279). -/
structure BundleMetadata where
  total_urls_discovered : Nat
  successfully_processed : Nat
deriving DecidableEq

/-- The `KnowledgeBundle` pydantic model of `schemas.py`, with the metadata
dict the generator actually stores. -/
structure KnowledgeBundle where
  llms_txt : Str
  llms_full_txt : Str
  source_url : Str
  page_count : Nat
  metadata : BundleMetadata
deriving DecidableEq

/-- The aggregation step of `extract_knowledge` (lines 259-280): sort the
collected results by index, build the two documents from the sorted list, and
strip the page separators from the full text. -/
def buildBundle (url : Str) (urls : List Str) (results : List ScrapedPage) :
    KnowledgeBundle :=
  let sorted := sortByIndex results
  { llms_txt := llmsHeader url ++ indexDoc sorted
    llms_full_txt := stripSeps (llmsFullHeader url ++ fullDoc 1 sorted)
    source_url := url
    page_count := results.length
    metadata := { total_urls_discovered := urls.length
                  successfully_processed := results.length } }

/-- The failures `extract_knowledge` can surface to its caller: the explicit
`ValueError("No URLs found for ...")` of line 219, or an exception propagating
out of the retry wrapper of `_map_website`. -/
inductive PipeError where
  | noUrls
  | mapperFailure (e : ErrKind)
deriving DecidableEq

/-- `extract_knowledge` (lines 199-280): map the site (retried); raise
`ValueError` if the resulting list is empty; truncate to `max_pages`; run the
per-URL workers; aggregate.  The collected `all_results` list is here taken in
canonical submission order — `buildBundle` composed with any permutation of
`pipelineSuccesses` models the other completion orders, and the concurrency
theorems show the output does not depend on that choice. -/
def extract_knowledge (url : Str) (max_pages : Nat) (mapCalls : Nat → MapResp)
    (sc : Nat → Nat → ScrapeResp) (su : Nat → Nat → SummaryResp) :
    Except PipeError KnowledgeBundle :=
  match map_website url max_pages mapCalls with
  | .err e => .error (.mapperFailure e)
  | .ok links =>
    if links.isEmpty then .error .noUrls
    else
      let urls := links.take max_pages
      .ok (buildBundle url urls (pipelineSuccesses urls sc su))

/-- The block a page contributes to the delivered full text once its
separator is stripped: `f"## {title}\n{markdown}\n\n"`. -/
def pageBody (p : ScrapedPage) : Str :=
  "## ".toList ++ p.title ++ "\n".toList ++ p.markdown ++ "\n\n".toList

/-- Concatenation of the stripped page blocks, in list order. -/
def bodiesDoc : List ScrapedPage → Str
  | [] => []
  | p :: ps => pageBody p ++ bodiesDoc ps

/-- Fixture oracles and records for the concrete witnesses below. -/
def wScrapeOK : Nat → Nat → ScrapeResp := fun _ _ => .body true (some ⟨"m".toList⟩)

def wSumOK : Nat → Nat → SummaryResp :=
  fun _ _ => .content (some (some "T".toList, some "D".toList))

def w4urls : List Str := ["a".toList, "b".toList]

def w8p0 : ScrapedPage := ⟨"a".toList, "T".toList, "D".toList, "m".toList, 0⟩

def w8p1 : ScrapedPage := ⟨"b".toList, "U".toList, "E".toList, "n".toList, 1⟩

def c7MD : Str := "a<|firecrawl-page-2-lllmstxt|>b".toList

def c7Bundle : KnowledgeBundle :=
  buildBundle "u".toList ["a".toList]
    [⟨"a".toList, "T".toList, "D".toList, c7MD, 0⟩]

/-- The index-ordering relation used by `all_results.sort(key=lambda x: x.index)`. -/
def idxLE (a b : ScrapedPage) : Prop := a.index ≤ b.index

/-- Strict index ordering. -/
def idxLT (a b : ScrapedPage) : Prop := a.index < b.index

/-- The retry wrapper makes at most `r + 1` attempts. -/
theorem retryFromCnt_le (call : Nat → Outcome α) :
    ∀ r k, (retryFromCnt call k r).2 ≤ r + 1 := by
  intro r
  induction r with
  | zero => intro k; rfl
  | succ r ih =>
    intro k
    rw [retryFromCnt]
    cases call k with
    | ok a => exact Nat.le_add_left 1 (r + 1)
    | err e =>
      have := ih (k + 1)
      simpa using Nat.succ_le_succ this

/-- Inserting into a list is a permutation of consing. -/
theorem insertByIndex_perm (p : ScrapedPage) (l : List ScrapedPage) :
    (insertByIndex p l).Perm (p :: l) := by
  induction l with
  | nil => exact List.Perm.refl _
  | cons q qs ih =>
    rw [insertByIndex]
    by_cases h : p.index ≤ q.index
    · rw [if_pos h]
    · rw [if_neg h]
      exact (ih.cons q).trans (List.Perm.swap p q qs)

/-- `sortByIndex` permutes its input. -/
theorem sortByIndex_perm (l : List ScrapedPage) : (sortByIndex l).Perm l := by
  induction l with
  | nil => exact List.Perm.refl _
  | cons p ps ih =>
    exact (insertByIndex_perm p (sortByIndex ps)).trans (ih.cons p)

/-- Inserting into a `idxLE`-sorted list keeps it sorted. -/
theorem sorted_insertByIndex (p : ScrapedPage) (l : List ScrapedPage)
    (h : l.Sorted idxLE) : (insertByIndex p l).Sorted idxLE := by
  induction l with
  | nil => simp [insertByIndex]
  | cons q qs ih =>
    rw [List.sorted_cons] at h
    rw [insertByIndex]
    by_cases hpq : p.index ≤ q.index
    · rw [if_pos hpq]
      rw [List.sorted_cons]
      refine ⟨?_, by rw [List.sorted_cons]; exact h⟩
      intro b hb
      rcases List.mem_cons.mp hb with hb | hb
      · subst hb; exact hpq
      · exact Nat.le_trans hpq (h.1 b hb)
    · rw [if_neg hpq]
      rw [List.sorted_cons]
      refine ⟨?_, ih h.2⟩
      intro b hb
      have hb' : b ∈ p :: qs := (insertByIndex_perm p qs).mem_iff.mp hb
      rcases List.mem_cons.mp hb' with hb' | hb'
      · subst hb'; exact Nat.le_of_lt (Nat.lt_of_not_le hpq)
      · exact h.1 b hb'

/-- `sortByIndex` sorts by index. -/
theorem sorted_sortByIndex (l : List ScrapedPage) : (sortByIndex l).Sorted idxLE := by
  induction l with
  | nil => simp [sortByIndex]
  | cons p ps ih => exact sorted_insertByIndex p (sortByIndex ps) ih

/-- A list sorted by `idxLE` whose indices are pairwise distinct is sorted by
the strict relation. -/
theorem sorted_idxLT_of_nodup (l : List ScrapedPage) (hs : l.Sorted idxLE)
    (hn : (l.map (fun p => p.index)).Nodup) : l.Sorted idxLT := by
  have hp : l.Pairwise (fun a b => a.index ≠ b.index) := (List.pairwise_map).mp hn
  exact (hs.and hp).imp (fun hab => Nat.lt_of_le_of_ne hab.1 hab.2)

/-- A list sorted by the strict relation has pairwise-distinct indices. -/
theorem nodup_indices_of_sorted_idxLT (l : List ScrapedPage) (hs : l.Sorted idxLT) :
    (l.map (fun p => p.index)).Nodup := by
  have : (l.map (fun p => p.index)).Pairwise (· < ·) :=
    (List.pairwise_map).mpr hs
  exact this.imp Nat.ne_of_lt

/-- Sorting any permutation of a list that is already strictly sorted by index
recovers that list: completion order cannot influence the sorted result. -/
theorem sortByIndex_eq_of_sorted (cs S : List ScrapedPage) (h : cs.Perm S)
    (hS : S.Sorted idxLT) : sortByIndex cs = S := by
  haveI : IsAntisymm ScrapedPage idxLT :=
    ⟨fun a b h1 h2 => absurd h1 (Nat.lt_asymm h2)⟩
  have hperm : (sortByIndex cs).Perm S := (sortByIndex_perm cs).trans h
  have hnS : (S.map (fun p => p.index)).Nodup := nodup_indices_of_sorted_idxLT S hS
  have hncs : ((sortByIndex cs).map (fun p => p.index)).Nodup :=
    (hperm.map (fun p => p.index)).symm.nodup hnS
  exact List.eq_of_perm_of_sorted hperm
    (sorted_idxLT_of_nodup _ (sorted_sortByIndex cs) hncs) hS

/-- Two permutations of the same records with pairwise-distinct indices sort
to the same list. -/
theorem sortByIndex_eq_sortByIndex (rs₁ rs₂ : List ScrapedPage)
    (h : rs₁.Perm rs₂) (hn : (rs₁.map (fun p => p.index)).Nodup) :
    sortByIndex rs₁ = sortByIndex rs₂ := by
  haveI : IsAntisymm ScrapedPage idxLT :=
    ⟨fun a b h1 h2 => absurd h1 (Nat.lt_asymm h2)⟩
  have h₁ : (sortByIndex rs₁).Perm rs₁ := sortByIndex_perm rs₁
  have h₂ : (sortByIndex rs₂).Perm rs₂ := sortByIndex_perm rs₂
  have hn₁ : ((sortByIndex rs₁).map (fun p => p.index)).Nodup :=
    ((h₁.map (fun p => p.index))).symm.nodup hn
  have hn₂ : ((sortByIndex rs₂).map (fun p => p.index)).Nodup :=
    ((h₂.map (fun p => p.index))).symm.nodup ((h.map (fun p => p.index)).nodup hn)
  exact List.eq_of_perm_of_sorted (h₁.trans (h.trans h₂.symm))
    (sorted_idxLT_of_nodup _ (sorted_sortByIndex rs₁) hn₁)
    (sorted_idxLT_of_nodup _ (sorted_sortByIndex rs₂) hn₂)

/-- A record returned by `_process_url` carries the index it was called with. -/
theorem process_url_ok (sc : Nat → ScrapeResp) (su : Nat → SummaryResp)
    (u : Str) (i : Nat) (p : ScrapedPage)
    (h : process_url sc su u i = .ok (some p)) : p.index = i := by
  unfold process_url at h
  split at h
  · exact absurd h (by simp)
  · exact absurd h (by simp)
  · split at h
    · exact absurd h (by simp)
    · split at h
      · exact absurd h (by simp)
      · injection h with h
        injection h with h
        subst h
        rfl

/-- A successful worker's record carries the index it was submitted with. -/
theorem procOpt_index (sc : Nat → ScrapeResp) (su : Nat → SummaryResp)
    (u : Str) (i : Nat) (p : ScrapedPage) (hp : procOpt sc su u i = some p) :
    p.index = i := by
  unfold procOpt at hp
  split at hp
  next q hq =>
    injection hp with hp
    exact hp ▸ process_url_ok sc su u i q hq
  next => exact absurd hp (by simp)
  next => exact absurd hp (by simp)

/-- Mapping a key through a `filterMap` whose kept elements take their key
from the source element yields a sublist of the source keys. -/
theorem filterMap_key_sublist (f : α → Option β) (k : β → γ) (g : α → γ)
    (l : List α) (h : ∀ a b, f a = some b → k b = g a) :
    ((l.filterMap f).map k).Sublist (l.map g) := by
  induction l with
  | nil => simp
  | cons a t ih =>
    cases hfa : f a with
    | none =>
      rw [List.filterMap_cons_none hfa, List.map_cons]
      exact ih.cons (g a)
    | some b =>
      rw [List.filterMap_cons_some hfa, List.map_cons, List.map_cons, h a b hfa]
      exact ih.cons₂ (g a)

/-- The record indices of a run form a sublist of `0, 1, ..., |urls| - 1`. -/
theorem pipelineSuccesses_indices_sublist (urls : List Str)
    (sc : Nat → Nat → ScrapeResp) (su : Nat → Nat → SummaryResp) :
    ((pipelineSuccesses urls sc su).map (fun p => p.index)).Sublist
      (List.range' 0 urls.length) := by
  have h := filterMap_key_sublist
    (fun iu => procOpt (sc iu.1) (su iu.1) iu.2 iu.1) (fun p => p.index)
    Prod.fst urls.enum
    (fun a b hab => procOpt_index (sc a.1) (su a.1) a.2 a.1 b hab)
  rw [List.enum_eq_enumFrom, List.enumFrom_map_fst] at h
  simpa [pipelineSuccesses, List.enum_eq_enumFrom] using h

/-- The record list of a run is strictly sorted by index. -/
theorem pipelineSuccesses_sorted (urls : List Str)
    (sc : Nat → Nat → ScrapeResp) (su : Nat → Nat → SummaryResp) :
    (pipelineSuccesses urls sc su).Sorted idxLT := by
  have h : ((pipelineSuccesses urls sc su).map (fun p => p.index)).Pairwise (· < ·) :=
    (List.pairwise_lt_range' 0 urls.length).sublist
      (pipelineSuccesses_indices_sublist urls sc su)
  have h' : (pipelineSuccesses urls sc su).Pairwise (fun a b => a.index < b.index) :=
    (List.pairwise_map).mp h
  exact h'.imp (fun hab => hab)

/-- The record indices of a run are pairwise distinct. -/
theorem pipelineSuccesses_indices_nodup (urls : List Str)
    (sc : Nat → Nat → ScrapeResp) (su : Nat → Nat → SummaryResp) :
    ((pipelineSuccesses urls sc su).map (fun p => p.index)).Nodup :=
  nodup_indices_of_sorted_idxLT _ (pipelineSuccesses_sorted urls sc su)

/-- Every record index of a run lies below the number of processed URLs. -/
theorem pipelineSuccesses_indices_lt (urls : List Str)
    (sc : Nat → Nat → ScrapeResp) (su : Nat → Nat → SummaryResp) :
    ∀ i ∈ (pipelineSuccesses urls sc su).map (fun p => p.index),
      i < urls.length := by
  intro i hi
  have hmem : i ∈ List.range' 0 urls.length :=
    (pipelineSuccesses_indices_sublist urls sc su).mem hi
  have := (List.mem_range'_1).mp hmem
  omega

/-- A run yields at most one record per processed URL. -/
theorem pipelineSuccesses_length_le (urls : List Str)
    (sc : Nat → Nat → ScrapeResp) (su : Nat → Nat → SummaryResp) :
    (pipelineSuccesses urls sc su).length ≤ urls.length := by
  have h := List.length_filterMap_le
    (fun iu => procOpt (sc iu.1) (su iu.1) iu.2 iu.1) urls.enum
  calc (pipelineSuccesses urls sc su).length ≤ urls.enum.length := h
    _ = urls.length := List.enum_length

/-- `Nat.digitChar` of a value below 10 is a digit character. -/
theorem digitChar_isDigit (d : Nat) (h : d < 10) : (Nat.digitChar d).isDigit := by
  interval_cases d <;> decide

/-- Every character produced by the digit algorithm is a digit. -/
theorem natDigitsAux_isDigit :
    ∀ fuel n, ∀ c ∈ natDigitsAux fuel n, c.isDigit := by
  intro fuel
  induction fuel with
  | zero => intro n c hc; simp [natDigitsAux] at hc
  | succ fuel ih =>
    intro n c hc
    rw [natDigitsAux] at hc
    by_cases hn : n = 0
    · rw [if_pos hn] at hc; simp at hc
    · rw [if_neg hn] at hc
      rcases List.mem_append.mp hc with hc | hc
      · exact ih (n / 10) c hc
      · have : c = Nat.digitChar (n % 10) := by simpa using hc
        subst this
        exact digitChar_isDigit (n % 10) (Nat.mod_lt n (by omega))

/-- Every character of a positive number's decimal rendering is a digit. -/
theorem natDigits_isDigit (n : Nat) : ∀ c ∈ natDigits n, c.isDigit :=
  natDigitsAux_isDigit n n

/-- A positive number renders to at least one digit. -/
theorem natDigits_ne_nil (n : Nat) (h : n ≠ 0) : natDigits n ≠ [] := by
  unfold natDigits
  cases n with
  | zero => exact absurd rfl h
  | succ m =>
    rw [natDigitsAux, if_neg h]
    simp

/-- `takeWhile` over an all-satisfying block followed by a failing character
takes exactly the block. -/
theorem takeWhile_append_block (p : Char → Bool) (a : Str) (c : Char) (cs : Str)
    (h : ∀ x ∈ a, p x) (hc : p c = false) :
    (a ++ c :: cs).takeWhile p = a := by
  induction a with
  | nil => simp [List.takeWhile, hc]
  | cons x xs ih =>
    simp only [List.cons_append, List.takeWhile]
    rw [h x (by simp)]
    simp only [List.cons.injEq, true_and]
    exact ih (fun y hy => h y (by simp [hy]))

/-- A successful separator match strictly shortens the string. -/
theorem matchSep_some_length (s r : Str) (h : matchSep s = some r) :
    r.length < s.length := by
  unfold matchSep at h
  split at h
  case isTrue hpre =>
    simp only at h
    split at h
    · exact absurd h (by simp)
    · split at h
      case isTrue =>
        injection h with h
        have hlen : sepHead.length ≤ s.length := hpre.length_le
        have h17 : sepHead.length = 17 := rfl
        have h12 : sepTail.length = 12 := rfl
        subst h
        simp only [List.length_drop]
        omega
      case isFalse => exact absurd h (by simp)
  case isFalse => exact absurd h (by simp)

/-- The match result does not depend on any fuel bound; two sufficient fuels
compute the same stripped string. -/
theorem stripSepsF_congr :
    ∀ f₁ f₂ s, s.length ≤ f₁ → s.length ≤ f₂ → stripSepsF f₁ s = stripSepsF f₂ s := by
  intro f₁
  induction f₁ with
  | zero =>
    intro f₂ s h₁ _
    have : s = [] := List.eq_nil_of_length_eq_zero (Nat.le_zero.mp h₁)
    subst this
    cases f₂ <;> rfl
  | succ f₁ ih =>
    intro f₂ s h₁ h₂
    cases s with
    | nil => cases f₂ <;> rfl
    | cons c cs =>
      cases f₂ with
      | zero => simp at h₂
      | succ f₂ =>
        rw [stripSepsF, stripSepsF]
        cases hm : matchSep (c :: cs) with
        | some r =>
          have hr := matchSep_some_length (c :: cs) r hm
          simp only [List.length_cons] at h₁ h₂ hr
          exact ih f₂ r (by omega) (by omega)
        | none =>
          simp only [List.length_cons] at h₁ h₂
          rw [ih f₂ cs (by omega) (by omega)]

/-- Unfolding `stripSeps` when the head starts a separator match. -/
theorem stripSeps_cons_match (c : Char) (cs r : Str)
    (h : matchSep (c :: cs) = some r) : stripSeps (c :: cs) = stripSeps r := by
  have hr := matchSep_some_length (c :: cs) r h
  simp only [List.length_cons] at hr
  unfold stripSeps
  have h1 : (c :: cs).length = cs.length + 1 := rfl
  rw [h1, stripSepsF, h]
  exact stripSepsF_congr cs.length r.length r (by omega) (by omega)

/-- Unfolding `stripSeps` when no separator match starts at the head. -/
theorem stripSeps_cons_skip (c : Char) (cs : Str)
    (h : matchSep (c :: cs) = none) : stripSeps (c :: cs) = c :: stripSeps cs := by
  unfold stripSeps
  have h1 : (c :: cs).length = cs.length + 1 := rfl
  rw [h1, stripSepsF, h]

/-- No separator match can start at a character other than `<`. -/
theorem matchSep_cons_ne (c : Char) (cs : Str) (h : c ≠ '<') :
    matchSep (c :: cs) = none := by
  unfold matchSep
  rw [if_neg]
  intro hpre
  obtain ⟨t, ht⟩ := hpre
  have hshape : sepHead ++ t = '<' :: ("|firecrawl-page-".toList ++ t) := rfl
  rw [hshape] at ht
  injection ht with ht _
  exact h ht.symm

/-- Stripping walks over a `<`-free block unchanged. -/
theorem stripSeps_append_clean (a b : Str) (h : ∀ c ∈ a, c ≠ '<') :
    stripSeps (a ++ b) = a ++ stripSeps b := by
  induction a with
  | nil => simp
  | cons c cs ih =>
    rw [List.cons_append,
      stripSeps_cons_skip c (cs ++ b) (matchSep_cons_ne c (cs ++ b) (h c (by simp)))]
    rw [ih (fun x hx => h x (by simp [hx]))]
    rfl

/-- A `<`-free string strips to itself. -/
theorem stripSeps_nil : stripSeps [] = [] := rfl

theorem stripSeps_clean (a : Str) (h : ∀ c ∈ a, c ≠ '<') : stripSeps a = a := by
  have h0 := stripSeps_append_clean a [] h
  rw [List.append_nil, stripSeps_nil, List.append_nil] at h0
  exact h0

/-- A page separator at the head of the string matches exactly, leaving the
rest. -/
theorem matchSep_pageSep (i : Nat) (hi : i ≠ 0) (s : Str) :
    matchSep (pageSep i ++ s) = some s := by
  have harr : pageSep i ++ s = sepHead ++ (natDigits i ++ (sepTail ++ s)) := by
    simp [pageSep, List.append_assoc]
  rw [harr]
  unfold matchSep
  rw [if_pos (List.prefix_append _ _)]
  simp only [List.drop_left]
  have htail : sepTail ++ s = '-' :: ("lllmstxt|>\n".toList ++ s) := rfl
  have htake : (natDigits i ++ (sepTail ++ s)).takeWhile (fun c => c.isDigit) =
      natDigits i := by
    rw [htail]
    exact takeWhile_append_block _ _ _ _ (natDigits_isDigit i) (by decide)
  rw [htake]
  rw [if_neg (by simpa [List.isEmpty_iff] using natDigits_ne_nil i hi)]
  simp only [List.drop_left]
  rw [if_pos (List.prefix_append _ _)]

/-- Stripping removes a page separator standing at the head. -/
theorem stripSeps_sep_append (i : Nat) (hi : i ≠ 0) (s : Str) :
    stripSeps (pageSep i ++ s) = stripSeps s := by
  have hm : matchSep (pageSep i ++ s) = some s := matchSep_pageSep i hi s
  have hshape : pageSep i ++ s =
      '<' :: (("|firecrawl-page-".toList ++ natDigits i ++ sepTail) ++ s) := by
    have : pageSep i = '<' :: ("|firecrawl-page-".toList ++ natDigits i ++ sepTail) := by
      simp [pageSep, sepHead]
    rw [this, List.cons_append]
  rw [hshape] at hm ⊢
  exact stripSeps_cons_match _ _ _ hm

/-- A page with `<`-free title and markdown contributes a `<`-free block. -/
theorem pageBody_clean (p : ScrapedPage) (ht : ∀ c ∈ p.title, c ≠ '<')
    (hm : ∀ c ∈ p.markdown, c ≠ '<') : ∀ c ∈ pageBody p, c ≠ '<' := by
  intro c hc
  unfold pageBody at hc
  simp only [List.mem_append] at hc
  rcases hc with ((((hc | hc) | hc) | hc) | hc)
  · exact (by decide : ∀ x ∈ "## ".toList, x ≠ '<') c hc
  · exact ht c hc
  · exact (by decide : ∀ x ∈ "\n".toList, x ≠ '<') c hc
  · exact hm c hc
  · exact (by decide : ∀ x ∈ "\n\n".toList, x ≠ '<') c hc

/-- Stripped page blocks of clean pages are `<`-free. -/
theorem bodiesDoc_clean (ps : List ScrapedPage)
    (h : ∀ p ∈ ps, (∀ c ∈ p.title, c ≠ '<') ∧ (∀ c ∈ p.markdown, c ≠ '<')) :
    ∀ c ∈ bodiesDoc ps, c ≠ '<' := by
  induction ps with
  | nil => intro c hc; simp [bodiesDoc] at hc
  | cons p ps ih =>
    intro c hc
    rw [bodiesDoc] at hc
    rcases List.mem_append.mp hc with hc | hc
    · exact pageBody_clean p (h p (by simp)).1 (h p (by simp)).2 c hc
    · exact ih (fun q hq => h q (by simp [hq])) c hc

/-- `fullEntry` is the separator followed by the page block. -/
theorem fullEntry_eq (i : Nat) (p : ScrapedPage) :
    fullEntry i p = pageSep i ++ pageBody p := by
  unfold fullEntry pageBody
  simp [List.append_assoc]

/-- Stripping the pre-strip full-text body of clean pages removes exactly the
separators, for any positive starting number. -/
theorem stripSeps_fullDoc (ps : List ScrapedPage) :
    ∀ k, k ≠ 0 →
    (∀ p ∈ ps, (∀ c ∈ p.title, c ≠ '<') ∧ (∀ c ∈ p.markdown, c ≠ '<')) →
    stripSeps (fullDoc k ps) = bodiesDoc ps := by
  induction ps with
  | nil => intro k _ _; rfl
  | cons p ps ih =>
    intro k hk h
    rw [fullDoc, bodiesDoc, fullEntry_eq, List.append_assoc]
    rw [stripSeps_sep_append k hk]
    rw [stripSeps_append_clean _ _ (pageBody_clean p (h p (by simp)).1 (h p (by simp)).2)]
    rw [ih (k + 1) (by omega) (fun q hq => h q (by simp [hq]))]

/-- The full-text header of a `<`-free source URL is `<`-free. -/
theorem llmsFullHeader_clean (url : Str) (h : ∀ c ∈ url, c ≠ '<') :
    ∀ c ∈ llmsFullHeader url, c ≠ '<' := by
  intro c hc
  unfold llmsFullHeader at hc
  simp only [List.mem_append] at hc
  rcases hc with (hc | hc) | hc
  · exact (by decide : ∀ x ∈ "# ".toList, x ≠ '<') c hc
  · exact h c hc
  · exact (by decide : ∀ x ∈ " llms-full.txt\n\n".toList, x ≠ '<') c hc

/-- The delivered full text of a run over clean pages and source URL. -/
theorem llms_full_txt_eq (url : Str) (urls : List Str) (rs : List ScrapedPage)
    (hurl : ∀ c ∈ url, c ≠ '<')
    (h : ∀ p ∈ rs, (∀ c ∈ p.title, c ≠ '<') ∧ (∀ c ∈ p.markdown, c ≠ '<')) :
    (buildBundle url urls rs).llms_full_txt =
      llmsFullHeader url ++ bodiesDoc (sortByIndex rs) := by
  show stripSeps (llmsFullHeader url ++ fullDoc 1 (sortByIndex rs)) = _
  rw [stripSeps_append_clean _ _ (llmsFullHeader_clean url hurl)]
  rw [stripSeps_fullDoc (sortByIndex rs) 1 (by omega)
    (fun q hq => h q ((sortByIndex_perm rs).mem_iff.mp hq))]

/-- A `<`-free string contains no marker substring: any such substring would
contribute its leading `<`. -/
theorem no_marker_of_clean (s : Str) (h : ∀ c ∈ s, c ≠ '<') :
    ∀ i, ¬ (pageMarker i).IsInfix s := by
  intro i hinf
  obtain ⟨pre, post, hs⟩ := hinf
  have hmem : '<' ∈ s := by
    rw [← hs]
    have : '<' ∈ pageMarker i := by
      unfold pageMarker
      have : sepHead = '<' :: "|firecrawl-page-".toList := rfl
      simp [this]
    simp [this]
  exact h '<' hmem rfl

/-- Newline count of one index-document entry line, when none of the
interpolated fields contains a newline. -/
theorem count_nl_entryLine (p : ScrapedPage)
    (h : '\n' ∉ p.title ∧ '\n' ∉ p.url ∧ '\n' ∉ p.description) :
    (entryLine p).count ('\n') = 1 := by
  unfold entryLine
  simp only [List.count_append]
  rw [List.count_eq_zero.mpr h.1, List.count_eq_zero.mpr h.2.1,
    List.count_eq_zero.mpr h.2.2]
  decide

/-- Newline count of the index-document body: one line per record. -/
theorem count_nl_indexDoc (ps : List ScrapedPage)
    (h : ∀ p ∈ ps, '\n' ∉ p.title ∧ '\n' ∉ p.url ∧
      '\n' ∉ p.description) :
    (indexDoc ps).count ('\n') = ps.length := by
  induction ps with
  | nil => rfl
  | cons p ps ih =>
    rw [indexDoc, List.count_append, count_nl_entryLine p (h p (by simp)),
      ih (fun q hq => h q (by simp [hq]))]
    simp [Nat.add_comm]

/-- Newline count of the index-document header: the header line plus the
blank line after it. -/
theorem count_nl_llmsHeader (url : Str) (h : '\n' ∉ url) :
    (llmsHeader url).count ('\n') = 2 := by
  unfold llmsHeader
  simp only [List.count_append]
  rw [List.count_eq_zero.mpr h]
  decide

/-- On a successful, non-empty map response, `extract_knowledge` returns the
bundle aggregated from the truncated URL list's successful records. -/
theorem extract_knowledge_ok (url : Str) (max_pages : Nat)
    (mapCalls : Nat → MapResp) (sc : Nat → Nat → ScrapeResp)
    (su : Nat → Nat → SummaryResp) (links : List Str)
    (hm : map_website url max_pages mapCalls = .ok links) (hne : links ≠ []) :
    extract_knowledge url max_pages mapCalls sc su =
      .ok (buildBundle url (links.take max_pages)
        (pipelineSuccesses (links.take max_pages) sc su)) := by
  unfold extract_knowledge
  rw [hm]
  simp only []
  rw [if_neg (by simpa [List.isEmpty_iff] using hne)]

/-- C1, counterexample: a summarizer response that parses as JSON but lacks
both expected fields does not raise any failure — `_generate_summary`
substitutes the defaults via `result.get`, returning the invented pair
`("Page", "No description available")` instead of the permanent failure the
claim requires. -/
theorem c1_summarizer_invents_defaults_cex :
    generate_summary [] [] (fun _ => .content (some (none, none))) =
      .ok (defaultTitle, defaultDescription) ∧
    Outcome.ok (α := Str × Str) (defaultTitle, defaultDescription) ≠ .err .network ∧
    Outcome.ok (α := Str × Str) (defaultTitle, defaultDescription) ≠ .err .jsonDecode :=
  ⟨rfl, fun h => Outcome.noConfusion h, fun h => Outcome.noConfusion h⟩

/-- C1, amended: if the summarizer response body is not valid JSON,
`_generate_summary` raises a decode error (and the item then fails, as the
third conjunct shows for a worker whose fetch succeeded); but if the body
parses to an object with missing `title`/`description` fields, the defaults
`"Page"` / `"No description available"` are substituted instead of failing,
so the Summarizer can return a partially invented result. -/
theorem c1_summarizer_parse_behavior (url markdown : Str) (t d : Option Str) :
    generate_summary url markdown (fun _ => .content none) = .err .jsonDecode ∧
    generate_summary url markdown (fun _ => .content (some (t, d))) =
      .ok (t.getD defaultTitle, d.getD defaultDescription) ∧
    process_url (fun _ => .body true (some ⟨"m".toList⟩)) (fun _ => .content none)
      url 0 = .err .jsonDecode :=
  ⟨rfl, rfl, rfl⟩

/-- C2, counterexample: with every summarizer response unparsable — a
permanent failure per the claim, to be failed after a single attempt — the
tenacity wrapper nevertheless makes all 3 attempts, because `json.loads`
raises inside `_generate_summary` and tenacity retries every exception; the
decode error then propagates for the item. -/
theorem c2_unparsable_retried_cex :
    generate_summaryAttempts (fun _ => .content none) = 3 ∧
    generate_summary [] [] (fun _ => .content none) = .err .jsonDecode :=
  ⟨rfl, rfl⟩

/-- C2, amended: every wrapper makes at most 3 attempts; a non-raising scrape
response — however malformed or empty its body — is never retried, being
handled in a single attempt with the worker treating the item as failed;
a transient network error is retried; but an unparsable summarizer body
raises and is retried like a transient failure until attempts are
exhausted. -/
theorem c2_retry_policy (mc : Nat → MapResp) (scO : Nat → ScrapeResp)
    (suO : Nat → SummaryResp) (s : Bool) (d : Option ScrapePayload) :
    map_websiteAttempts mc ≤ 3 ∧
    scrape_urlAttempts scO ≤ 3 ∧
    generate_summaryAttempts suO ≤ 3 ∧
    scrape_urlAttempts (fun _ => .body s d) = 1 ∧
    scrape_urlAttempts (fun k => if k = 0 then .netErr else .body s d) = 2 ∧
    generate_summaryAttempts (fun _ => .content none) = 3 :=
  ⟨retryFromCnt_le _ 2 0, retryFromCnt_le _ 2 0, retryFromCnt_le _ 2 0,
    rfl, rfl, rfl⟩

/-- C5, counterexample: a map response whose `links` list repeats one URL
three times makes `_map_website` (called with limit 2) return that list
verbatim: with duplicates and longer than the limit. -/
theorem c5_mapper_no_dedup_cex :
    map_website "u".toList 2
      (fun _ => .body true ["a".toList, "a".toList, "a".toList]) =
      .ok ["a".toList, "a".toList, "a".toList] ∧
    ¬ ([ "a".toList, "a".toList, "a".toList ] : List Str).Nodup ∧
    2 < ([ "a".toList, "a".toList, "a".toList ] : List Str).length :=
  ⟨rfl, by decide, by decide⟩

/-- C5, amended: `_map_website` returns the response's `links` list verbatim
whenever `success` is truthy and `links` is non-empty, and the empty list
otherwise; it performs no deduplication and no length clamping (the caller
truncates to `max_pages` afterwards). -/
theorem c5_mapper_passthrough (url : Str) (limit : Nat) (success : Bool)
    (links : List Str) :
    map_website url limit (fun _ => .body success links) =
      .ok (if success && !links.isEmpty then links else []) := rfl

/-- C6: when the mapper call succeeds with an empty URL list,
`extract_knowledge` raises the dedicated `ValueError("No URLs found ...")`,
a failure distinct from every network/API mapper failure, and returns no
bundle at all. -/
theorem c6_empty_mapper_aborts (url : Str) (max_pages : Nat)
    (mapCalls : Nat → MapResp) (sc : Nat → Nat → ScrapeResp)
    (su : Nat → Nat → SummaryResp)
    (hm : map_website url max_pages mapCalls = .ok []) :
    extract_knowledge url max_pages mapCalls sc su = .error .noUrls ∧
    (∀ e, (PipeError.noUrls : PipeError) ≠ .mapperFailure e) ∧
    (∀ b, extract_knowledge url max_pages mapCalls sc su ≠ .ok b) := by
  have h1 : extract_knowledge url max_pages mapCalls sc su = .error .noUrls := by
    unfold extract_knowledge
    rw [hm]
    rfl
  exact ⟨h1, fun e h => PipeError.noConfusion h,
    fun b h => Except.noConfusion ((h1.symm.trans h))⟩

/-- C6, witness: a concrete run whose map response is `success` with zero
links aborts with the `noUrls` failure. -/
theorem c6_empty_mapper_aborts_witness :
    extract_knowledge "u".toList 5 (fun _ => .body true [])
      (fun _ _ => .netErr) (fun _ _ => .netErr) = .error .noUrls ∧
    (∀ e, (PipeError.noUrls : PipeError) ≠ .mapperFailure e) ∧
    (∀ b, extract_knowledge "u".toList 5 (fun _ => .body true [])
      (fun _ _ => .netErr) (fun _ _ => .netErr) ≠ .ok b) :=
  c6_empty_mapper_aborts "u".toList 5 (fun _ => .body true [])
    (fun _ _ => .netErr) (fun _ _ => .netErr) rfl

/-- C3, counterexample: a successful run that produced no page records (its
one URL failing to scrape) has an index document of 2 lines — the header line
and the blank line after it — while `page_count` is 0, so the line count is
not `page_count`. -/
theorem c3_line_count_cex :
    extract_knowledge "u".toList 1 (fun _ => .body true ["a".toList])
      (fun _ _ => .netErr) (fun _ _ => .content none) =
      .ok (buildBundle "u".toList ["a".toList] []) ∧
    (buildBundle "u".toList ["a".toList] ([] : List ScrapedPage)).page_count = 0 ∧
    (buildBundle "u".toList ["a".toList] ([] : List ScrapedPage)).llms_txt.count
      '\n' = 2 :=
  ⟨rfl, rfl, by decide⟩

/-- C3, amended: for every successful run whose record titles, URLs,
descriptions and source URL are newline-free, the newline count of the index
document — its line count, the document ending in a newline — is
`page_count + 2`: one line per record plus the two header lines
`f"# {url} llms.txt\n\n"` prepends. -/
theorem c3_line_count_header_offset (url : Str) (max_pages : Nat)
    (mapCalls : Nat → MapResp) (sc : Nat → Nat → ScrapeResp)
    (su : Nat → Nat → SummaryResp) (links : List Str) (b : KnowledgeBundle)
    (hm : map_website url max_pages mapCalls = .ok links) (hne : links ≠ [])
    (hb : extract_knowledge url max_pages mapCalls sc su = .ok b)
    (hurl : '\n' ∉ url)
    (hclean : ∀ p ∈ pipelineSuccesses (links.take max_pages) sc su,
      '\n' ∉ p.title ∧ '\n' ∉ p.url ∧ '\n' ∉ p.description) :
    b.llms_txt.count '\n' = b.page_count + 2 := by
  have hok := extract_knowledge_ok url max_pages mapCalls sc su links hm hne
  rw [hok] at hb
  injection hb with hb
  subst hb
  show (llmsHeader url ++
      indexDoc (sortByIndex (pipelineSuccesses (links.take max_pages) sc su))).count '\n' =
    (pipelineSuccesses (links.take max_pages) sc su).length + 2
  rw [List.count_append, count_nl_llmsHeader url hurl,
    count_nl_indexDoc _ (fun q hq => hclean q ((sortByIndex_perm _).mem_iff.mp hq)),
    (sortByIndex_perm (pipelineSuccesses (links.take max_pages) sc su)).length_eq]
  omega

/-- C3, witness: a concrete one-page run satisfying the newline-free
hypotheses, whose index document counts `page_count + 2` newlines. -/
theorem c3_line_count_header_offset_witness :
    (buildBundle "u".toList (["a".toList].take 1)
      (pipelineSuccesses (["a".toList].take 1) wScrapeOK wSumOK)).llms_txt.count '\n' =
    (buildBundle "u".toList (["a".toList].take 1)
      (pipelineSuccesses (["a".toList].take 1) wScrapeOK wSumOK)).page_count + 2 :=
  c3_line_count_header_offset "u".toList 1 (fun _ => .body true ["a".toList])
    wScrapeOK wSumOK ["a".toList] _ rfl (by decide) rfl (by decide) (by decide)

/-- C4: for every run and every completion order — any permutation `cs` of
the run's successful records — aggregation sorts back to the canonical
index-ordered record list: the build order of both documents is strictly
increasing in original index, and the bundle built from `cs` equals the one
built from the canonical order, so completion order never shows in the
output. -/
theorem c4_output_order_by_index (url : Str) (urls : List Str)
    (sc : Nat → Nat → ScrapeResp) (su : Nat → Nat → SummaryResp)
    (cs : List ScrapedPage) (h : cs.Perm (pipelineSuccesses urls sc su)) :
    sortByIndex cs = pipelineSuccesses urls sc su ∧
    ((sortByIndex cs).map (fun p => p.index)).Sorted (· < ·) ∧
    buildBundle url urls cs = buildBundle url urls (pipelineSuccesses urls sc su) := by
  have hS := pipelineSuccesses_sorted urls sc su
  have h1 : sortByIndex cs = pipelineSuccesses urls sc su :=
    sortByIndex_eq_of_sorted cs _ h hS
  have h2 : sortByIndex (pipelineSuccesses urls sc su) =
      pipelineSuccesses urls sc su :=
    sortByIndex_eq_of_sorted _ _ (List.Perm.refl _) hS
  refine ⟨h1, ?_, ?_⟩
  · rw [h1]
    exact (List.pairwise_map).mpr (hS.imp (fun hab => hab))
  · simp only [buildBundle, h1, h2, h.length_eq]

/-- C4, witness: a two-page run whose results arrive in reversed completion
order still aggregates to the index-ordered bundle. -/
theorem c4_output_order_by_index_witness :
    sortByIndex (pipelineSuccesses w4urls wScrapeOK wSumOK).reverse =
      pipelineSuccesses w4urls wScrapeOK wSumOK ∧
    ((sortByIndex (pipelineSuccesses w4urls wScrapeOK wSumOK).reverse).map
      (fun p => p.index)).Sorted (· < ·) ∧
    buildBundle "u".toList w4urls (pipelineSuccesses w4urls wScrapeOK wSumOK).reverse =
      buildBundle "u".toList w4urls (pipelineSuccesses w4urls wScrapeOK wSumOK) :=
  c4_output_order_by_index "u".toList w4urls wScrapeOK wSumOK
    (pipelineSuccesses w4urls wScrapeOK wSumOK).reverse (by decide)

/-- C7, counterexample: a run whose page markdown contains a separator-shaped
substring not followed by a newline delivers a full-text document in which
that marker substring survives `_remove_page_separators` (the regex requires
a trailing newline), so the delivered document does contain a residual
page-separator marker. -/
theorem c7_residual_marker_cex :
    extract_knowledge "u".toList 1 (fun _ => .body true ["a".toList])
      (fun _ _ => .body true (some ⟨c7MD⟩))
      (fun _ _ => .content (some (some "T".toList, some "D".toList))) =
      .ok c7Bundle ∧
    (pageMarker 2).IsInfix c7Bundle.llms_full_txt :=
  ⟨rfl, by decide⟩

/-- C7, amended: provided the source URL and every record's title and
markdown contain no `<` character — in particular no separator-shaped text —
the delivered full-text document contains no `<` at all, hence no residual
page-separator marker substring: the stripping removes exactly the inserted
separators. -/
theorem c7_no_residual_markers (url : Str) (max_pages : Nat)
    (mapCalls : Nat → MapResp) (sc : Nat → Nat → ScrapeResp)
    (su : Nat → Nat → SummaryResp) (links : List Str) (b : KnowledgeBundle)
    (hm : map_website url max_pages mapCalls = .ok links) (hne : links ≠ [])
    (hb : extract_knowledge url max_pages mapCalls sc su = .ok b)
    (hurl : ∀ c ∈ url, c ≠ '<')
    (hclean : ∀ p ∈ pipelineSuccesses (links.take max_pages) sc su,
      (∀ c ∈ p.title, c ≠ '<') ∧ (∀ c ∈ p.markdown, c ≠ '<')) :
    (∀ c ∈ b.llms_full_txt, c ≠ '<') ∧
    (∀ i, ¬ (pageMarker i).IsInfix b.llms_full_txt) := by
  have hok := extract_knowledge_ok url max_pages mapCalls sc su links hm hne
  rw [hok] at hb
  injection hb with hb
  subst hb
  rw [llms_full_txt_eq url (links.take max_pages) _ hurl hclean]
  have hall : ∀ c ∈ llmsFullHeader url ++
      bodiesDoc (sortByIndex (pipelineSuccesses (links.take max_pages) sc su)),
      c ≠ '<' := by
    intro c hc
    rcases List.mem_append.mp hc with hc | hc
    · exact llmsFullHeader_clean url hurl c hc
    · exact bodiesDoc_clean _
        (fun q hq => hclean q ((sortByIndex_perm _).mem_iff.mp hq)) c hc
  exact ⟨hall, no_marker_of_clean _ hall⟩

/-- C7, witness: a concrete clean one-page run whose delivered full text is
`<`-free and marker-free. -/
theorem c7_no_residual_markers_witness :
    (∀ c ∈ (buildBundle "u".toList (["a".toList].take 1)
      (pipelineSuccesses (["a".toList].take 1) wScrapeOK wSumOK)).llms_full_txt,
      c ≠ '<') ∧
    (∀ i, ¬ (pageMarker i).IsInfix (buildBundle "u".toList (["a".toList].take 1)
      (pipelineSuccesses (["a".toList].take 1) wScrapeOK wSumOK)).llms_full_txt) :=
  c7_no_residual_markers "u".toList 1 (fun _ => .body true ["a".toList])
    wScrapeOK wSumOK ["a".toList] _ rfl (by decide) rfl (by decide) (by decide)

/-- C8: aggregation is a pure function of the collection of page records —
two completion orders of the same records (with the pairwise-distinct indices
the pipeline guarantees) build identical bundles, in particular byte-identical
index and full-text documents. -/
theorem c8_aggregation_deterministic (url : Str) (urls : List Str)
    (rs₁ rs₂ : List ScrapedPage) (hperm : rs₁.Perm rs₂)
    (hn : (rs₁.map (fun p => p.index)).Nodup) :
    buildBundle url urls rs₁ = buildBundle url urls rs₂ := by
  simp only [buildBundle, sortByIndex_eq_sortByIndex rs₁ rs₂ hperm hn,
    hperm.length_eq]

/-- C8, witness: two concrete orders of the same two records build the same
bundle. -/
theorem c8_aggregation_deterministic_witness :
    buildBundle "u".toList ["a".toList, "b".toList] [w8p0, w8p1] =
      buildBundle "u".toList ["a".toList, "b".toList] [w8p1, w8p0] :=
  c8_aggregation_deterministic "u".toList ["a".toList, "b".toList]
    [w8p0, w8p1] [w8p1, w8p0] (by decide) (by decide)

/-- C9: for every successful run, `page_count` is the number of page records,
`page_count` is at most the discovered-URL count stored in the metadata, and
the record indices are pairwise distinct, all lying below that count. -/
theorem c9_bundle_invariants (url : Str) (max_pages : Nat)
    (mapCalls : Nat → MapResp) (sc : Nat → Nat → ScrapeResp)
    (su : Nat → Nat → SummaryResp) (links : List Str) (b : KnowledgeBundle)
    (hm : map_website url max_pages mapCalls = .ok links) (hne : links ≠ [])
    (hb : extract_knowledge url max_pages mapCalls sc su = .ok b) :
    b.page_count = (pipelineSuccesses (links.take max_pages) sc su).length ∧
    b.page_count ≤ b.metadata.total_urls_discovered ∧
    ((pipelineSuccesses (links.take max_pages) sc su).map (fun p => p.index)).Nodup ∧
    (∀ i ∈ (pipelineSuccesses (links.take max_pages) sc su).map (fun p => p.index),
      i < b.metadata.total_urls_discovered) := by
  have hok := extract_knowledge_ok url max_pages mapCalls sc su links hm hne
  rw [hok] at hb
  injection hb with hb
  subst hb
  refine ⟨rfl, ?_, pipelineSuccesses_indices_nodup _ sc su, ?_⟩
  · exact pipelineSuccesses_length_le _ sc su
  · exact pipelineSuccesses_indices_lt _ sc su

/-- C9, witness: the invariants on a concrete one-page run. -/
theorem c9_bundle_invariants_witness :
    (buildBundle "u".toList (["a".toList].take 1)
      (pipelineSuccesses (["a".toList].take 1) wScrapeOK wSumOK)).page_count =
      (pipelineSuccesses (["a".toList].take 1) wScrapeOK wSumOK).length ∧
    (buildBundle "u".toList (["a".toList].take 1)
      (pipelineSuccesses (["a".toList].take 1) wScrapeOK wSumOK)).page_count ≤
      (buildBundle "u".toList (["a".toList].take 1)
        (pipelineSuccesses (["a".toList].take 1) wScrapeOK wSumOK)).metadata.total_urls_discovered ∧
    ((pipelineSuccesses (["a".toList].take 1) wScrapeOK wSumOK).map
      (fun p => p.index)).Nodup ∧
    (∀ i ∈ (pipelineSuccesses (["a".toList].take 1) wScrapeOK wSumOK).map
      (fun p => p.index),
      i < (buildBundle "u".toList (["a".toList].take 1)
        (pipelineSuccesses (["a".toList].take 1) wScrapeOK wSumOK)).metadata.total_urls_discovered) :=
  c9_bundle_invariants "u".toList 1 (fun _ => .body true ["a".toList])
    wScrapeOK wSumOK ["a".toList] _ rfl (by decide) rfl

/-- C10: a run with `max_pages = 0` and a non-empty discovery does not abort:
the empty-list check precedes truncation, so the pipeline returns a bundle
with `page_count = 0`, `total_urls_discovered = 0` (the metadata counts the
truncated list, not the discovery), and both documents reduced to their
headers. -/
theorem c10_zero_max_pages (url : Str) (mapCalls : Nat → MapResp)
    (sc : Nat → Nat → ScrapeResp) (su : Nat → Nat → SummaryResp)
    (links : List Str)
    (hm : map_website url 0 mapCalls = .ok links) (hne : links ≠ [])
    (hurl : ∀ c ∈ url, c ≠ '<') :
    extract_knowledge url 0 mapCalls sc su =
      .ok { llms_txt := llmsHeader url
            llms_full_txt := llmsFullHeader url
            source_url := url
            page_count := 0
            metadata := ⟨0, 0⟩ } := by
  rw [extract_knowledge_ok url 0 mapCalls sc su links hm hne]
  rw [List.take_zero]
  rw [show pipelineSuccesses ([] : List Str) sc su = [] from rfl]
  unfold buildBundle
  simp only [sortByIndex, indexDoc, fullDoc, List.append_nil, List.length_nil]
  rw [stripSeps_clean _ (llmsFullHeader_clean url hurl)]

/-- C10, witness: a concrete zero-`max_pages` run over a one-link discovery
returns the header-only bundle. -/
theorem c10_zero_max_pages_witness :
    extract_knowledge "u".toList 0 (fun _ => .body true ["a".toList])
      wScrapeOK wSumOK =
      .ok { llms_txt := llmsHeader "u".toList
            llms_full_txt := llmsFullHeader "u".toList
            source_url := "u".toList
            page_count := 0
            metadata := ⟨0, 0⟩ } :=
  c10_zero_max_pages "u".toList (fun _ => .body true ["a".toList])
    wScrapeOK wSumOK ["a".toList] rfl (by decide) (by decide)

end LlmsGen
